import Mathlib

/-!
Shallow embedding of `internal/datanode/binlog_io.go` (package `datanode`):
the binlog download/upload layer of the ingestion node.

External collaborators (object-store client, blob codec, ID allocator) are
modelled as oracle functions supplied in an environment record, exactly at
the interface the source consumes.  Machine `int64` values are modelled as
`Int`; byte slices as `List Nat`.  The process-wide worker pool is modelled
by running each submitted task as a pure function of its own inputs and an
explicit execution order, since the submitted closures in the source share
no mutable state.
-/

set_option autoImplicit false

namespace BinlogSpec

/-- Byte payloads (`[]byte` in the source). -/
abbrev Bytes := List Nat

/-- Blob produced by the storage codec; the source uses `GetKey`, `GetValue`
and `RowNum` of `storage.Blob`. -/
structure Blob where
  key : String
  value : Bytes
  rowNum : Int
deriving DecidableEq, Repr

/-- One entry of `datapb.FieldBinlog.Binlogs`: the source fills
`EntriesNum`, `LogPath` and `LogSize`. -/
structure Binlog where
  entriesNum : Int
  logPath : String
  logSize : Int
deriving DecidableEq, Repr

/-- `datapb.FieldBinlog`: field identifier plus its list of binlog entries. -/
structure FieldBinlog where
  fieldID : Int
  binlogs : List Binlog
deriving DecidableEq, Repr

/-- Modelled from the spec: `storage.InsertData` is not under `src/`; the spec
says it is column-oriented and "empty" when it holds zero rows in every
column, so we keep only the per-column row counts. -/
structure InsertData where
  colRows : List Nat
deriving DecidableEq, Repr

/-- Modelled from the spec: `InsertData.IsEmpty` — zero rows in every column. -/
def InsertData.isEmpty (d : InsertData) : Bool :=
  d.colRows.all (fun n => n == 0)

/-- `storage.DeleteData`: the source only reads its `RowCount` and hands the
whole batch to the delete codec. -/
structure DeleteData where
  rowCount : Int
deriving DecidableEq, Repr

/-- Modelled from the spec: `storage.PrimaryKeyStats` is an opaque summary
object computed upstream; the source only passes it to the codec. -/
structure PrimaryKeyStats where
  token : Nat
deriving DecidableEq, Repr

/-- `etcdpb.CollectionMeta`: the source uses only `GetID()` (also as the
schema ID of the insert codec built from the meta). -/
structure CollectionMeta where
  id : Int
deriving DecidableEq, Repr

/-- Errors raised on the upload path.  `errUploadToBlobStorage` is the
distinguished cancellation error declared at the top of the source file;
codec and allocator failures are the errors of the external collaborators. -/
inductive BErr where
  | codecErr : String → BErr
  | allocErr : BErr
  | errUploadToBlobStorage : BErr
deriving DecidableEq, Repr

/-- Modelled from the spec: `common.SegmentInsertLogPath`, the subpath
constant for insert logs (`pkg/common` is not under `src/`). -/
def SegmentInsertLogPath : String := "insert_log"

/-- Modelled from the spec: `common.SegmentStatslogPath`, the subpath
constant for stats logs. -/
def SegmentStatslogPath : String := "stats_log"

/-- Modelled from the spec: `common.SegmentDeltaLogPath`, the subpath
constant for delta logs. -/
def SegmentDeltaLogPath : String := "delta_log"

/-- Modelled from the spec: `path.Join` on clean, non-empty segments joins
them with a single slash. -/
def joinPath (segs : List String) : String :=
  String.intercalate "/" segs

/-- Modelled from the spec: `metautil.JoinIDPath` (not under `src/`) renders
each identifier in decimal and composes them as hierarchical path
segments, in argument order. -/
def joinIDPath (ids : List Int) : String :=
  String.intercalate "/" (ids.map toString)

/-- Accumulating base-10 parser over characters; fails at the first
non-digit. -/
def parseDigitsAux : List Char → Nat → Option Nat
  | [], acc => some acc
  | c :: rest, acc =>
    if c.isDigit then parseDigitsAux rest (acc * 10 + (c.toNat - 48))
    else none

/-- `strconv.ParseInt(s, 10, 64)` as used on the codec's blob keys: an
optional leading minus sign followed by at least one decimal digit; the
source ignores the parse error, and Go returns value `0` in that case. -/
def parseFieldID (s : String) : Int :=
  match s.data with
  | [] => 0
  | '-' :: rest =>
    match rest with
    | [] => 0
    | _ =>
      match parseDigitsAux rest 0 with
      | some n => -(Int.ofNat n)
      | none => 0
  | l =>
    match parseDigitsAux l 0 with
    | some n => Int.ofNat n
    | none => 0

/-- Environment of external collaborators consumed by `binlogIO`:
the codec serializers, the ID allocator (as the stream of its successive
answers) and the chunk manager's root path. -/
structure Env where
  rootPath : String
  serializeInsert : Int → Int → InsertData → Except String (List Blob)
  serializePkStats : PrimaryKeyStats → Int → Except String Blob
  serializeDelete : Int → Int → Int → DeleteData → Except String Blob
  alloc : Nat → Int
  allocFails : Nat → Bool
  genOpenFails : Nat → Bool

/-- Allocator state: how many identifiers have been drawn from the
ID sequence source so far. -/
structure St where
  used : Nat
deriving DecidableEq, Repr

/-- `allocator.AllocOne`: draws the next identifier, or fails with an
allocation error. -/
def allocOne (env : Env) (st : St) : Except BErr (Int × St) :=
  if env.allocFails st.used then .error .allocErr
  else .ok (env.alloc st.used, ⟨st.used + 1⟩)

/-- Go map write `kvs[k] = v` on an association-list model: replaces the
entry when the key is present, appends otherwise. -/
def kvsSet (kvs : List (String × Bytes)) (k : String) (v : Bytes) :
    List (String × Bytes) :=
  if kvs.any (fun p => p.1 == k) then
    kvs.map (fun p => if p.1 == k then (k, v) else p)
  else kvs ++ [(k, v)]

/-- Go map read `kvs[k]`. -/
def kvsGet (kvs : List (String × Bytes)) (k : String) : Option Bytes :=
  (kvs.find? (fun p => p.1 == k)).map Prod.snd

/-- Go map write on the `fieldID → FieldBinlog` result maps. -/
def fmapSet (m : List (Int × FieldBinlog)) (k : Int) (v : FieldBinlog) :
    List (Int × FieldBinlog) :=
  if m.any (fun p => p.1 == k) then
    m.map (fun p => if p.1 == k then (k, v) else p)
  else m ++ [(k, v)]

/-- `binlogIO.genDeltaBlobs`: serialize the delete batch, draw one ID, and
build the delta-log key (root, delta subpath, then
collection/partition/segment/disambiguator). -/
def genDeltaBlobs (env : Env) (data : DeleteData) (collID partID segID : Int)
    (st : St) : Except BErr (String × Bytes × St) :=
  match env.serializeDelete collID partID segID data with
  | .error e => .error (.codecErr e)
  | .ok blob =>
    match allocOne env st with
    | .error e => .error e
    | .ok (idx, st') =>
      let k := joinIDPath [collID, partID, segID, idx]
      let key := joinPath [env.rootPath, SegmentDeltaLogPath, k]
      .ok (key, blob.value, st')

/-- The storage key one iteration of the `genInsertBlobs` loop builds for a
codec blob: root path, insert-log subpath, then schema (collection), partition,
segment, field and disambiguator segments, the disambiguator being the next
value of the lazy ID generator. -/
def insertStepKey (env : Env) (schemaID partID segID : Int) (blob : Blob)
    (st : St) : String :=
  joinPath [env.rootPath, SegmentInsertLogPath,
    joinIDPath [schemaID, partID, segID, parseFieldID blob.key,
      env.alloc st.used]]

/-- Body of the per-blob loop of `binlogIO.genInsertBlobs`: for each codec
blob, parse the field ID from the blob key, draw the next ID from the lazy
generator, build the insert-log key, store the payload in the write batch
and record the `FieldBinlog` entry. -/
def genInsertLoop (env : Env) (schemaID partID segID : Int) :
    List Blob → List (String × Bytes) → List (Int × FieldBinlog) → St →
    List (Int × FieldBinlog) × List (String × Bytes) × St
  | [], kvs, inpaths, st => (inpaths, kvs, st)
  | blob :: rest, kvs, inpaths, st =>
    let fID := parseFieldID blob.key
    let key := insertStepKey env schemaID partID segID blob st
    let value := blob.value
    let fileLen := value.length
    let fb : FieldBinlog := ⟨fID, [⟨blob.rowNum, key, Int.ofNat fileLen⟩]⟩
    genInsertLoop env schemaID partID segID rest
      (kvsSet kvs key value) (fmapSet inpaths fID fb) ⟨st.used + 1⟩

/-- `binlogIO.genInsertBlobs`: serialize the insert batch, open a lazy ID
sequence of length `inlogs.length` (modelled from the spec: each next value
of `allocator.GetGenerator` triggers exactly one allocation), then run the
per-blob loop. -/
def genInsertBlobs (env : Env) (data : InsertData) (partID segID schemaID : Int)
    (kvs : List (String × Bytes)) (st : St) :
    Except BErr (List (Int × FieldBinlog) × List (String × Bytes) × St) :=
  match env.serializeInsert partID segID data with
  | .error e => .error (.codecErr e)
  | .ok inlogs =>
    if env.genOpenFails st.used then .error .allocErr
    else .ok (genInsertLoop env schemaID partID segID inlogs kvs [] st)

/-- `binlogIO.genStatBlobs`: serialize the primary-key stats, draw one ID,
build the stats-log key, store the payload in the write batch and return
the single-entry stats map. -/
def genStatBlobs (env : Env) (stats : PrimaryKeyStats) (partID segID schemaID : Int)
    (kvs : List (String × Bytes)) (totRows : Int) (st : St) :
    Except BErr (List (Int × FieldBinlog) × List (String × Bytes) × St) :=
  match env.serializePkStats stats totRows with
  | .error e => .error (.codecErr e)
  | .ok statBlob =>
    match allocOne env st with
    | .error e => .error e
    | .ok (idx, st') =>
      let fID := parseFieldID statBlob.key
      let k := joinIDPath [schemaID, partID, segID, fID, idx]
      let key := joinPath [env.rootPath, SegmentStatslogPath, k]
      let value := statBlob.value
      let fb : FieldBinlog := ⟨fID, [⟨totRows, key, Int.ofNat value.length⟩]⟩
      .ok ([(fID, fb)], kvsSet kvs key value, st')

/-- Per-task view of the world inside `uploadSegmentFiles`: whether the
context is observed as cancelled at the task's n-th loop iteration, and the
outcome of the task's n-th `Write` attempt (`none` = success, `some e` = a
backend error, whose identity the loop never inspects). -/
structure WriteOracle where
  canceled : Nat → Bool
  write : Nat → Option String

deriving instance DecidableEq for Except

/-- Observable record of one write task's run: how many `Write` attempts it
performed, the backoff sleeps it performed (in milliseconds, in order), and
its result (`none` when the loop has not terminated within the given
fuel). -/
structure TaskRun where
  attempts : Nat
  sleeps : List Nat
  result : Option (Except BErr Unit)
deriving DecidableEq, Repr

/-- The retry loop of one task submitted by `binlogIO.uploadSegmentFiles`:
starting from `err = errStart`, each iteration first checks the context —
if it is done the task returns `errUploadToBlobStorage` — otherwise it
sleeps 50ms (except before the very first attempt) and attempts the write,
looping until an attempt succeeds.  `fuel` bounds the number of iterations
unfolded; `n` is the index of the current iteration. -/
def uploadTask (o : WriteOracle) : Nat → Nat → TaskRun
  | 0, _ => ⟨0, [], none⟩
  | fuel + 1, n =>
    if o.canceled n then ⟨0, [], some (.error .errUploadToBlobStorage)⟩
    else
      let slp : List Nat := if n = 0 then [] else [50]
      match o.write n with
      | none => ⟨1, slp, some (.ok ())⟩
      | some _ =>
        let r := uploadTask o fuel (n + 1)
        ⟨1 + r.attempts, slp ++ r.sleeps, r.result⟩

/-- `binlogIO.uploadSegmentFiles`: empty batch is a no-op; otherwise one
retrying write task per pair is submitted to the pool and all are awaited
(modelled from the spec: `conc.AwaitAll` blocks for every task and the call
fails when any task reports the cancellation error).  Returns the overall
result (`none` when some task has not terminated within `fuel`) together
with the total number of `Write` attempts performed. -/
def uploadSegmentFiles (wo : Nat → WriteOracle) (fuel : Nat)
    (kvs : List (String × Bytes)) : Option (Except BErr Unit) × Nat :=
  if kvs.isEmpty then (some (.ok ()), 0)
  else
    let runs := (List.range kvs.length).map (fun j => uploadTask (wo j) fuel 0)
    let att := (runs.map TaskRun.attempts).sum
    if runs.all (fun r => r.result.isSome) then
      if runs.any (fun r => r.result == some (.error .errUploadToBlobStorage)) then
        (some (.error .errUploadToBlobStorage), att)
      else (some (.ok ()), att)
    else (none, att)

/-- Result of one upload entry point, together with the ghost observations
the claims are about: the final allocator state, the batch of key/value
pairs actually handed to `uploadSegmentFiles` (empty when the call returned
before submitting), and the total number of `Write` attempts performed. -/
structure UploadOut (α : Type) where
  result : Option (Except BErr α)
  st : St
  writes : List (String × Bytes)
  attempts : Nat

/-- `binlogIO.uploadInsertLog`: empty insert batch returns `(nil, nil)`
without allocating or writing; otherwise the insert blobs are generated and
the whole batch is written through `uploadSegmentFiles`.  The `.ok none`
result encodes Go's `(nil, nil)`. -/
def uploadInsertLog (env : Env) (wo : Nat → WriteOracle) (fuel : Nat)
    (segID partID : Int) (iData : InsertData) (meta : CollectionMeta) (st : St) :
    UploadOut (Option (List (Int × FieldBinlog))) :=
  if iData.isEmpty then ⟨some (.ok none), st, [], 0⟩
  else
    match genInsertBlobs env iData partID segID meta.id [] st with
    | .error e => ⟨some (.error e), st, [], 0⟩
    | .ok (inpaths, kvs, st') =>
      let r := uploadSegmentFiles wo fuel kvs
      match r.1 with
      | none => ⟨none, st', kvs, r.2⟩
      | some (.error e) => ⟨some (.error e), st', kvs, r.2⟩
      | some (.ok _) => ⟨some (.ok (some inpaths)), st', kvs, r.2⟩

/-- `binlogIO.uploadStatsLog`: insert blobs are generated only when the
insert batch is non-empty (`inPaths` stays nil otherwise), a stats blob
is always generated, and the combined batch is written through
`uploadSegmentFiles`. -/
def uploadStatsLog (env : Env) (wo : Nat → WriteOracle) (fuel : Nat)
    (segID partID : Int) (iData : InsertData) (stats : PrimaryKeyStats)
    (totRows : Int) (meta : CollectionMeta) (st : St) :
    UploadOut (Option (List (Int × FieldBinlog)) × List (Int × FieldBinlog)) :=
  let step1 : Except BErr
      (Option (List (Int × FieldBinlog)) × List (String × Bytes) × St) :=
    if iData.isEmpty then .ok (none, [], st)
    else
      match genInsertBlobs env iData partID segID meta.id [] st with
      | .error e => .error e
      | .ok (inp, kvs, st') => .ok (some inp, kvs, st')
  match step1 with
  | .error e => ⟨some (.error e), st, [], 0⟩
  | .ok (inPaths, kvs, st₁) =>
    match genStatBlobs env stats partID segID meta.id kvs totRows st₁ with
    | .error e => ⟨some (.error e), st₁, [], 0⟩
    | .ok (statPaths, kvs₂, st₂) =>
      let r := uploadSegmentFiles wo fuel kvs₂
      match r.1 with
      | none => ⟨none, st₂, kvs₂, r.2⟩
      | some (.error e) => ⟨some (.error e), st₂, kvs₂, r.2⟩
      | some (.ok _) => ⟨some (.ok (inPaths, statPaths)), st₂, kvs₂, r.2⟩

/-- `binlogIO.uploadDeltaLog`: a delete batch with `RowCount == 0` returns
`(nil, nil)` without allocating or writing; otherwise exactly one delta
blob is generated (with the fixed sentinel `FieldID = 0`) and written. -/
def uploadDeltaLog (env : Env) (wo : Nat → WriteOracle) (fuel : Nat)
    (segID partID : Int) (dData : DeleteData) (meta : CollectionMeta) (st : St) :
    UploadOut (Option (List FieldBinlog)) :=
  if dData.rowCount > 0 then
    match genDeltaBlobs env dData meta.id partID segID st with
    | .error e => ⟨some (.error e), st, [], 0⟩
    | .ok (k, v, st') =>
      let kvs := kvsSet [] k v
      let deltaInfo : List FieldBinlog :=
        [⟨0, [⟨dData.rowCount, k, Int.ofNat v.length⟩]⟩]
      let r := uploadSegmentFiles wo fuel kvs
      match r.1 with
      | none => ⟨none, st', kvs, r.2⟩
      | some (.error e) => ⟨some (.error e), st', kvs, r.2⟩
      | some (.ok _) => ⟨some (.ok (some deltaInfo)), st', kvs, r.2⟩
  else ⟨some (.ok none), st, [], 0⟩

/-- Per-call view of the object store on the read path: `read p n` is the
outcome of the n-th `Read` attempt for key `p`, and `retryable` is the
error classification `merr.IsRetryableErr`. -/
structure ReadEnv where
  retryable : String → Bool
  read : String → Nat → Except String Bytes

/-- Modelled from the spec: `retry.Do` with an attempt ceiling (not under
`src/`) — attempt the call; on a retryable error retry while attempts
remain, on a non-retryable error stop at once; also returns how many
attempts were performed. -/
def retryDo (re : ReadEnv) (p : String) : Nat → Nat → Except String Bytes × Nat
  | 0, _ => (.error "", 0)
  | 1, n => (re.read p n, 1)
  | k + 2, n =>
    match re.read p n with
    | .ok v => (.ok v, 1)
    | .error e =>
      if re.retryable e then
        let r := retryDo re p (k + 1) (n + 1)
        (r.1, r.2 + 1)
      else (.error e, 1)

/-- Result of the read task `binlogIO.download` submits for one key:
`retry.Do` with `retry.Attempts(3)` and `retry.RetryErr(merr.IsRetryableErr)`
around `ChunkManager.Read`. -/
def readResult (re : ReadEnv) (p : String) : Except String Bytes :=
  (retryDo re p 3 0).1

/-- Number of `Read` attempts the task for key `p` performs. -/
def readAttempts (re : ReadEnv) (p : String) : Nat :=
  (retryDo re p 3 0).2

/-- The pool executes the submitted tasks in some order; each task is a pure
function of its own index, so the execution order only determines the order
of the (index, result) completion records. -/
def runPool (task : Nat → Except String Bytes) (order : List Nat) :
    List (Nat × Except String Bytes) :=
  order.map (fun i => (i, task i))

/-- Awaiting `futures[i]`: look the i-th task's result up among the
completion records. -/
def await (results : List (Nat × Except String Bytes)) (i : Nat) :
    Except String Bytes :=
  ((results.find? (fun p => p.1 == i)).map Prod.snd).getD (.error "pending")

/-- The collection loop of `binlogIO.download`: walk the futures in input
order; at the first future holding an error return `(nil, err)`, otherwise
wrap each payload in a `Blob` with only `Value` set.  The pair models Go's
`([]*Blob, error)` return, with `none` for a nil slice. -/
def collectBlobs : List (Except String Bytes) → Option (List Blob) × Option String
  | [] => (some [], none)
  | .error e :: _ => (none, some e)
  | .ok v :: rest =>
    match collectBlobs rest with
    | (some vs, none) => (some (⟨"", v, 0⟩ :: vs), none)
    | (_, some e) => (none, some e)
    | (none, none) => (none, none)

/-- `binlogIO.download`, parameterized by the order in which the pool
executes the read tasks: an empty path list returns an empty (non-nil)
result at once; otherwise one retrying read task per path is submitted and
the futures are collected in input order. -/
def downloadWith (re : ReadEnv) (paths : List String) (order : List Nat) :
    Option (List Blob) × Option String :=
  if paths.length = 0 then (some [], none)
  else
    let results := runPool (fun j => readResult re (paths.getD j "")) order
    collectBlobs ((List.range paths.length).map (fun i => await results i))

/-- `binlogIO.download` with the canonical execution order. -/
def download (re : ReadEnv) (paths : List String) :
    Option (List Blob) × Option String :=
  downloadWith re paths (List.range paths.length)

/-- `LogSize`/`LogPath` consistency of a result map against a write batch. -/
def sizeInv (m : List (Int × FieldBinlog)) (kvs : List (String × Bytes)) : Prop :=
  ∀ p ∈ m, ∀ bl ∈ p.2.binlogs,
    ∃ v, kvsGet kvs bl.logPath = some v ∧ bl.logSize = Int.ofNat v.length

/-- `LogSize`/`LogPath` consistency of a `FieldBinlog` list against a write
batch. -/
def sizeInvF (l : List FieldBinlog) (kvs : List (String × Bytes)) : Prop :=
  ∀ fb ∈ l, ∀ bl ∈ fb.binlogs,
    ∃ v, kvsGet kvs bl.logPath = some v ∧ bl.logSize = Int.ofNat v.length

/-- Concrete environment used by the witnesses: a tiny codec, root path
`files`, and an allocator answering 40, 41, 42, …. -/
def envW : Env where
  rootPath := "files"
  serializeInsert := fun _ _ d => .ok [⟨"100", [7, 8], Int.ofNat (d.colRows.headD 0)⟩]
  serializePkStats := fun _ t => .ok ⟨"100", [1, 2, 3], t⟩
  serializeDelete := fun _ _ _ d => .ok ⟨"", [4, 5], d.rowCount⟩
  alloc := fun n => Int.ofNat (40 + n)
  allocFails := fun _ => false
  genOpenFails := fun _ => false

/-- Write oracles for the witnesses: every write succeeds at once. -/
def woW : Nat → WriteOracle := fun _ => ⟨fun _ => false, fun _ => none⟩

/-- Write oracles for the witnesses: the context is already cancelled at
every check. -/
def woC : Nat → WriteOracle := fun _ => ⟨fun _ => true, fun _ => none⟩

/-- Read environment for the witnesses: `bad` fails non-retryably, `flaky`
fails retryably twice and then succeeds, everything else succeeds at
once. -/
def reW : ReadEnv where
  retryable := fun e => e == "transient"
  read := fun p n =>
    if p == "bad" then .error "notfound"
    else if p == "flaky" then (if n < 2 then .error "transient" else .ok [9, 9])
    else .ok [p.length]

lemma kvsSet_of_fresh {kvs : List (String × Bytes)} {k : String} (v : Bytes)
    (h : kvs.any (fun p => p.1 == k) = false) :
    kvsSet kvs k v = kvs ++ [(k, v)] := by
  simp [kvsSet, h]

lemma kvsGet_append_left {kvs : List (String × Bytes)} {k : String} {v : Bytes}
    (l : List (String × Bytes)) (h : kvsGet kvs k = some v) :
    kvsGet (kvs ++ l) k = some v := by
  unfold kvsGet at h ⊢
  rcases hf : kvs.find? (fun p => p.1 == k) with _ | q
  · rw [hf] at h; simp at h
  · rw [hf] at h
    rw [List.find?_append, hf]
    simpa using h

lemma kvsGet_append_fresh {kvs : List (String × Bytes)} {k : String} (v : Bytes)
    (h : kvs.any (fun p => p.1 == k) = false) :
    kvsGet (kvs ++ [(k, v)]) k = some v := by
  unfold kvsGet
  rw [List.find?_append]
  have hnone : kvs.find? (fun p => p.1 == k) = none := by
    rw [List.find?_eq_none]
    intro p hp hc
    have hx : kvs.any (fun q => q.1 == k) = true := List.any_eq_true.mpr ⟨p, hp, hc⟩
    rw [h] at hx
    cases hx
  rw [hnone]
  simp [List.find?]

lemma kvsGet_kvsSet_self (kvs : List (String × Bytes)) (k : String) (v : Bytes) :
    kvsGet (kvsSet kvs k v) k = some v := by
  unfold kvsSet
  by_cases h : kvs.any (fun p => p.1 == k)
  · rw [if_pos h]
    rcases List.any_eq_true.mp h with ⟨p, hp, hpk⟩
    clear h
    induction kvs with
    | nil => cases hp
    | cons q rest ih =>
      unfold kvsGet
      by_cases hq : q.1 == k
      · simp only [List.map_cons, if_pos hq]
        rw [List.find?_cons_of_pos _ (by simp)]
        simp
      · simp only [List.map_cons, if_neg hq]
        rw [List.find?_cons_of_neg _ (by simpa using hq)]
        rcases List.mem_cons.mp hp with hp1 | hp1
        · subst hp1
          exact absurd hpk (by simpa using hq)
        · exact ih hp1
  · rw [if_neg h]
    refine kvsGet_append_fresh v ?_
    revert h
    cases kvs.any (fun p => p.1 == k) <;> simp

lemma kvsSet_length_le (kvs : List (String × Bytes)) (k : String) (v : Bytes) :
    (kvsSet kvs k v).length ≤ kvs.length + 1 := by
  unfold kvsSet
  by_cases h : kvs.any (fun p => p.1 == k)
  · rw [if_pos h]; simp
  · rw [if_neg h]; simp

lemma kvsSet_fresh_of_length {kvs : List (String × Bytes)} {k : String} {v : Bytes}
    (h : (kvsSet kvs k v).length = kvs.length + 1) :
    kvs.any (fun p => p.1 == k) = false := by
  by_contra hc
  have hc' : kvs.any (fun p => p.1 == k) = true := by
    revert hc; cases kvs.any (fun p => p.1 == k) <;> simp
  unfold kvsSet at h
  rw [if_pos hc'] at h
  simp at h

lemma mem_fmapSet {m : List (Int × FieldBinlog)} {k : Int} {v : FieldBinlog}
    {p : Int × FieldBinlog} (h : p ∈ fmapSet m k v) : p ∈ m ∨ p = (k, v) := by
  unfold fmapSet at h
  by_cases hm : m.any (fun q => q.1 == k)
  · rw [if_pos hm] at h
    rcases List.mem_map.mp h with ⟨q, hq, hqe⟩
    by_cases hqk : q.1 == k
    · right
      rw [if_pos hqk] at hqe
      exact hqe.symm
    · left
      rw [if_neg hqk] at hqe
      exact hqe ▸ hq
  · rw [if_neg hm] at h
    rcases List.mem_append.mp h with h | h
    · exact Or.inl h
    · right; simpa using h

lemma genInsertLoop_used (env : Env) (schemaID partID segID : Int)
    (blobs : List Blob) (kvs : List (String × Bytes))
    (inpaths : List (Int × FieldBinlog)) (st : St) :
    (genInsertLoop env schemaID partID segID blobs kvs inpaths st).2.2.used
      = st.used + blobs.length := by
  induction blobs generalizing kvs inpaths st with
  | nil => simp [genInsertLoop]
  | cons b rest ih =>
    simp only [genInsertLoop, ih, List.length_cons]
    omega

lemma uploadInsertLog_empty_aux (env : Env) (wo : Nat → WriteOracle)
    (fuel : Nat) (segID partID : Int) (iData : InsertData)
    (meta : CollectionMeta) (st : St) (h : iData.isEmpty = true) :
    uploadInsertLog env wo fuel segID partID iData meta st
      = ⟨some (.ok none), st, [], 0⟩ := by
  simp [uploadInsertLog, h]

lemma genInsertBlobs_ok {env : Env} {iData : InsertData}
    {partID segID schemaID : Int} {kvs : List (String × Bytes)} {st : St}
    {inp : List (Int × FieldBinlog)} {kvs' : List (String × Bytes)} {st' : St}
    (h : genInsertBlobs env iData partID segID schemaID kvs st = .ok (inp, kvs', st')) :
    ∃ inlogs, env.serializeInsert partID segID iData = .ok inlogs ∧
      env.genOpenFails st.used = false ∧
      genInsertLoop env schemaID partID segID inlogs kvs [] st = (inp, kvs', st') := by
  unfold genInsertBlobs at h
  rcases hs : env.serializeInsert partID segID iData with e | inlogs <;>
    rw [hs] at h <;> simp only [] at h
  · cases h
  · by_cases hg : env.genOpenFails st.used
    · rw [if_pos hg] at h
      cases h
    · rw [Bool.not_eq_true] at hg
      rw [if_neg (by simp [hg])] at h
      refine ⟨inlogs, rfl, hg, ?_⟩
      injection h with h

lemma genStatBlobs_ok {env : Env} {stats : PrimaryKeyStats}
    {partID segID schemaID : Int} {kvs : List (String × Bytes)} {totRows : Int}
    {st : St} {statP : List (Int × FieldBinlog)} {kvs₂ : List (String × Bytes)}
    {st₂ : St}
    (h : genStatBlobs env stats partID segID schemaID kvs totRows st
      = .ok (statP, kvs₂, st₂)) :
    ∃ statBlob, env.serializePkStats stats totRows = .ok statBlob ∧
      env.allocFails st.used = false ∧
      st₂ = ⟨st.used + 1⟩ ∧
      statP = [(parseFieldID statBlob.key,
        ⟨parseFieldID statBlob.key,
         [⟨totRows,
           joinPath [env.rootPath, SegmentStatslogPath,
             joinIDPath [schemaID, partID, segID, parseFieldID statBlob.key,
               env.alloc st.used]],
           Int.ofNat statBlob.value.length⟩]⟩)] ∧
      kvs₂ = kvsSet kvs
        (joinPath [env.rootPath, SegmentStatslogPath,
          joinIDPath [schemaID, partID, segID, parseFieldID statBlob.key,
            env.alloc st.used]])
        statBlob.value := by
  unfold genStatBlobs allocOne at h
  rcases hs : env.serializePkStats stats totRows with e | statBlob <;>
    rw [hs] at h <;> simp only [] at h
  · cases h
  · by_cases ha : env.allocFails st.used
    · rw [if_pos ha] at h; simp only [] at h; cases h
    · rw [Bool.not_eq_true] at ha
      rw [if_neg (by simp [ha])] at h
      simp only [] at h
      simp only [Except.ok.injEq, Prod.mk.injEq] at h
      obtain ⟨h1, h2, h3⟩ := h
      exact ⟨statBlob, rfl, ha, h3.symm, h1.symm, h2.symm⟩

lemma uploadInsertLog_ok {env : Env} {wo : Nat → WriteOracle} {fuel : Nat}
    {segID partID : Int} {iData : InsertData} {meta : CollectionMeta} {st : St}
    {inp : List (Int × FieldBinlog)}
    (h : (uploadInsertLog env wo fuel segID partID iData meta st).result
      = some (.ok (some inp))) :
    iData.isEmpty = false ∧
    ∃ kvs st', genInsertBlobs env iData partID segID meta.id [] st
        = .ok (inp, kvs, st') ∧
      (uploadInsertLog env wo fuel segID partID iData meta st).writes = kvs ∧
      (uploadInsertLog env wo fuel segID partID iData meta st).st = st' := by
  by_cases he : iData.isEmpty
  · rw [uploadInsertLog_empty_aux env wo fuel segID partID iData meta st he] at h
    cases h
  · rw [Bool.not_eq_true] at he
    rcases hg : genInsertBlobs env iData partID segID meta.id [] st
      with e | ⟨inp', kvs, st'⟩
    · have hEq : uploadInsertLog env wo fuel segID partID iData meta st
          = ⟨some (.error e), st, [], 0⟩ := by
        simp [uploadInsertLog, he, hg]
      rw [hEq] at h
      cases h
    · rcases hu : (uploadSegmentFiles wo fuel kvs).1 with _ | r
      · have hEq : uploadInsertLog env wo fuel segID partID iData meta st
            = ⟨none, st', kvs, (uploadSegmentFiles wo fuel kvs).2⟩ := by
          simp [uploadInsertLog, he, hg, hu]
        rw [hEq] at h
        cases h
      · rcases r with e | u
        · have hEq : uploadInsertLog env wo fuel segID partID iData meta st
              = ⟨some (.error e), st', kvs, (uploadSegmentFiles wo fuel kvs).2⟩ := by
            simp [uploadInsertLog, he, hg, hu]
          rw [hEq] at h
          cases h
        · have hEq : uploadInsertLog env wo fuel segID partID iData meta st
              = ⟨some (.ok (some inp')), st', kvs, (uploadSegmentFiles wo fuel kvs).2⟩ := by
            simp [uploadInsertLog, he, hg, hu]
          rw [hEq] at h
          simp only [Option.some.injEq, Except.ok.injEq, Option.some.injEq] at h
          subst h
          exact ⟨he, kvs, st', rfl, by rw [hEq], by rw [hEq]⟩

lemma uploadStatsLog_ok {env : Env} {wo : Nat → WriteOracle} {fuel : Nat}
    {segID partID : Int} {iData : InsertData} {stats : PrimaryKeyStats}
    {totRows : Int} {meta : CollectionMeta} {st : St}
    {ins : Option (List (Int × FieldBinlog))} {statP : List (Int × FieldBinlog)}
    (h : (uploadStatsLog env wo fuel segID partID iData stats totRows meta st).result
      = some (.ok (ins, statP))) :
    ∃ kvs₁ st₁,
      ((iData.isEmpty = true ∧ ins = none ∧ kvs₁ = [] ∧ st₁ = st) ∨
       (iData.isEmpty = false ∧ ∃ inp, ins = some inp ∧
         genInsertBlobs env iData partID segID meta.id [] st = .ok (inp, kvs₁, st₁))) ∧
      ∃ kvs₂ st₂,
        genStatBlobs env stats partID segID meta.id kvs₁ totRows st₁
          = .ok (statP, kvs₂, st₂) ∧
        (uploadStatsLog env wo fuel segID partID iData stats totRows meta st).writes
          = kvs₂ ∧
        (uploadStatsLog env wo fuel segID partID iData stats totRows meta st).st
          = st₂ := by
  by_cases he : iData.isEmpty
  · rcases hgs : genStatBlobs env stats partID segID meta.id [] totRows st
      with e | ⟨statP', kvs₂, st₂⟩
    · have hEq : uploadStatsLog env wo fuel segID partID iData stats totRows meta st
          = ⟨some (.error e), st, [], 0⟩ := by
        simp [uploadStatsLog, he, hgs]
      rw [hEq] at h
      cases h
    · rcases hu : (uploadSegmentFiles wo fuel kvs₂).1 with _ | r
      · have hEq : uploadStatsLog env wo fuel segID partID iData stats totRows meta st
            = ⟨none, st₂, kvs₂, (uploadSegmentFiles wo fuel kvs₂).2⟩ := by
          simp [uploadStatsLog, he, hgs, hu]
        rw [hEq] at h
        cases h
      · rcases r with e | u
        · have hEq : uploadStatsLog env wo fuel segID partID iData stats totRows meta st
              = ⟨some (.error e), st₂, kvs₂, (uploadSegmentFiles wo fuel kvs₂).2⟩ := by
            simp [uploadStatsLog, he, hgs, hu]
          rw [hEq] at h
          cases h
        · have hEq : uploadStatsLog env wo fuel segID partID iData stats totRows meta st
              = ⟨some (.ok (none, statP')), st₂, kvs₂, (uploadSegmentFiles wo fuel kvs₂).2⟩ := by
            simp [uploadStatsLog, he, hgs, hu]
          rw [hEq] at h
          simp only [Option.some.injEq, Except.ok.injEq, Prod.mk.injEq] at h
          refine ⟨[], st, Or.inl ⟨he, h.1.symm, rfl, rfl⟩, kvs₂, st₂, ?_, by rw [hEq], by rw [hEq]⟩
          rw [hgs, h.2]
  · rw [Bool.not_eq_true] at he
    rcases hg : genInsertBlobs env iData partID segID meta.id [] st
      with e | ⟨inp, kvs₁, st₁⟩
    · have hEq : uploadStatsLog env wo fuel segID partID iData stats totRows meta st
          = ⟨some (.error e), st, [], 0⟩ := by
        simp [uploadStatsLog, he, hg]
      rw [hEq] at h
      cases h
    · rcases hgs : genStatBlobs env stats partID segID meta.id kvs₁ totRows st₁
        with e | ⟨statP', kvs₂, st₂⟩
      · have hEq : uploadStatsLog env wo fuel segID partID iData stats totRows meta st
            = ⟨some (.error e), st₁, [], 0⟩ := by
          simp [uploadStatsLog, he, hg, hgs]
        rw [hEq] at h
        cases h
      · rcases hu : (uploadSegmentFiles wo fuel kvs₂).1 with _ | r
        · have hEq : uploadStatsLog env wo fuel segID partID iData stats totRows meta st
              = ⟨none, st₂, kvs₂, (uploadSegmentFiles wo fuel kvs₂).2⟩ := by
            simp [uploadStatsLog, he, hg, hgs, hu]
          rw [hEq] at h
          cases h
        · rcases r with e | u
          · have hEq : uploadStatsLog env wo fuel segID partID iData stats totRows meta st
                = ⟨some (.error e), st₂, kvs₂, (uploadSegmentFiles wo fuel kvs₂).2⟩ := by
              simp [uploadStatsLog, he, hg, hgs, hu]
            rw [hEq] at h
            cases h
          · have hEq : uploadStatsLog env wo fuel segID partID iData stats totRows meta st
                = ⟨some (.ok (some inp, statP')), st₂, kvs₂,
                    (uploadSegmentFiles wo fuel kvs₂).2⟩ := by
              simp [uploadStatsLog, he, hg, hgs, hu]
            rw [hEq] at h
            simp only [Option.some.injEq, Except.ok.injEq, Prod.mk.injEq] at h
            refine ⟨kvs₁, st₁, Or.inr ⟨he, inp, h.1.symm, rfl⟩, kvs₂, st₂, ?_,
              by rw [hEq], by rw [hEq]⟩
            rw [hgs, h.2]

lemma uploadDeltaLog_ok {env : Env} {wo : Nat → WriteOracle} {fuel : Nat}
    {segID partID : Int} {dData : DeleteData} {meta : CollectionMeta} {st : St}
    {dl : List FieldBinlog}
    (h : (uploadDeltaLog env wo fuel segID partID dData meta st).result
      = some (.ok (some dl))) :
    dData.rowCount > 0 ∧
    ∃ k v st', genDeltaBlobs env dData meta.id partID segID st = .ok (k, v, st') ∧
      dl = [⟨0, [⟨dData.rowCount, k, Int.ofNat v.length⟩]⟩] ∧
      (uploadDeltaLog env wo fuel segID partID dData meta st).writes = kvsSet [] k v ∧
      (uploadDeltaLog env wo fuel segID partID dData meta st).st = st' := by
  by_cases hr : dData.rowCount > 0
  · rcases hg : genDeltaBlobs env dData meta.id partID segID st with e | ⟨k, v, st'⟩
    · have hEq : uploadDeltaLog env wo fuel segID partID dData meta st
          = ⟨some (.error e), st, [], 0⟩ := by
        simp [uploadDeltaLog, hr, hg]
      rw [hEq] at h
      cases h
    · rcases hu : (uploadSegmentFiles wo fuel (kvsSet [] k v)).1 with _ | r
      · have hEq : uploadDeltaLog env wo fuel segID partID dData meta st
            = ⟨none, st', kvsSet [] k v,
                (uploadSegmentFiles wo fuel (kvsSet [] k v)).2⟩ := by
          simp [uploadDeltaLog, hr, hg, hu]
        rw [hEq] at h
        cases h
      · rcases r with e | u
        · have hEq : uploadDeltaLog env wo fuel segID partID dData meta st
              = ⟨some (.error e), st', kvsSet [] k v,
                  (uploadSegmentFiles wo fuel (kvsSet [] k v)).2⟩ := by
            simp [uploadDeltaLog, hr, hg, hu]
          rw [hEq] at h
          cases h
        · have hEq : uploadDeltaLog env wo fuel segID partID dData meta st
              = ⟨some (.ok (some [⟨0, [⟨dData.rowCount, k, Int.ofNat v.length⟩]⟩])),
                  st', kvsSet [] k v,
                  (uploadSegmentFiles wo fuel (kvsSet [] k v)).2⟩ := by
            simp [uploadDeltaLog, hr, hg, hu]
          rw [hEq] at h
          simp only [Option.some.injEq, Except.ok.injEq, Option.some.injEq] at h
          exact ⟨hr, k, v, st', rfl, h.symm, by rw [hEq], by rw [hEq]⟩
  · have hEq : uploadDeltaLog env wo fuel segID partID dData meta st
        = ⟨some (.ok none), st, [], 0⟩ := by
      simp [uploadDeltaLog, hr]
    rw [hEq] at h
    cases h

/-- C8: `uploadInsertLog` with an empty insert batch (zero rows in every
column) returns `(nil, nil)`, allocates no ID, serializes no blob into the
write batch, and performs no write to the object store. -/
theorem uploadInsertLog_empty_noop (env : Env) (wo : Nat → WriteOracle)
    (fuel : Nat) (segID partID : Int) (iData : InsertData)
    (meta : CollectionMeta) (st : St) (h : iData.isEmpty = true) :
    uploadInsertLog env wo fuel segID partID iData meta st
      = ⟨some (.ok none), st, [], 0⟩ := by
  simp [uploadInsertLog, h]

/-- Witness for C8: a concrete two-column batch with zero rows everywhere. -/
theorem uploadInsertLog_empty_noop_witness :
    InsertData.isEmpty ⟨[0, 0]⟩ = true ∧
    uploadInsertLog envW woW 5 3 2 ⟨[0, 0]⟩ ⟨1⟩ ⟨0⟩
      = ⟨some (.ok none), ⟨0⟩, [], 0⟩ :=
  ⟨by decide, uploadInsertLog_empty_noop envW woW 5 3 2 ⟨[0, 0]⟩ ⟨1⟩ ⟨0⟩ (by decide)⟩

/-- C9: `uploadDeltaLog` with a delete batch whose `RowCount` is 0 returns
`(nil, nil)`, allocates zero IDs and performs zero writes. -/
theorem uploadDeltaLog_zero_rows_noop (env : Env) (wo : Nat → WriteOracle)
    (fuel : Nat) (segID partID : Int) (dData : DeleteData)
    (meta : CollectionMeta) (st : St) (h : dData.rowCount = 0) :
    uploadDeltaLog env wo fuel segID partID dData meta st
      = ⟨some (.ok none), st, [], 0⟩ := by
  have : ¬dData.rowCount > 0 := by omega
  simp [uploadDeltaLog, this]

/-- Witness for C9: a concrete delete batch with zero rows. -/
theorem uploadDeltaLog_zero_rows_noop_witness :
    DeleteData.rowCount ⟨0⟩ = 0 ∧
    uploadDeltaLog envW woW 5 3 2 ⟨0⟩ ⟨1⟩ ⟨0⟩
      = ⟨some (.ok none), ⟨0⟩, [], 0⟩ :=
  ⟨by decide, uploadDeltaLog_zero_rows_noop envW woW 5 3 2 ⟨0⟩ ⟨1⟩ ⟨0⟩ (by decide)⟩

/-- C5: every successful `uploadStatsLog` call generates exactly one stats
blob from `stats` and `totRows`, keyed with one freshly allocated ID (the
last identifier drawn in the call), stores it in the write batch regardless
of whether the insert batch is empty, and when the insert batch is empty
returns a `nil` insert-log map together with a non-empty stats-log map. -/
theorem uploadStatsLog_always_writes_stats (env : Env) (wo : Nat → WriteOracle)
    (fuel : Nat) (segID partID : Int) (iData : InsertData)
    (stats : PrimaryKeyStats) (totRows : Int) (meta : CollectionMeta) (st : St)
    (ins : Option (List (Int × FieldBinlog))) (statP : List (Int × FieldBinlog))
    (h : (uploadStatsLog env wo fuel segID partID iData stats totRows meta st).result
      = some (.ok (ins, statP))) :
    ∃ statBlob n,
      env.serializePkStats stats totRows = .ok statBlob ∧
      env.allocFails n = false ∧
      st.used ≤ n ∧
      (uploadStatsLog env wo fuel segID partID iData stats totRows meta st).st.used
        = n + 1 ∧
      statP = [(parseFieldID statBlob.key,
        ⟨parseFieldID statBlob.key,
         [⟨totRows,
           joinPath [env.rootPath, SegmentStatslogPath,
             joinIDPath [meta.id, partID, segID, parseFieldID statBlob.key,
               env.alloc n]],
           Int.ofNat statBlob.value.length⟩]⟩)] ∧
      kvsGet (uploadStatsLog env wo fuel segID partID iData stats totRows meta st).writes
        (joinPath [env.rootPath, SegmentStatslogPath,
          joinIDPath [meta.id, partID, segID, parseFieldID statBlob.key,
            env.alloc n]])
        = some statBlob.value ∧
      (iData.isEmpty = true → ins = none ∧ statP ≠ []) := by
  obtain ⟨kvs₁, st₁, hcase, kvs₂, st₂, hgs, hw, hst⟩ := uploadStatsLog_ok h
  obtain ⟨statBlob, hpk, haf, hst₂, hstatP, hkvs₂⟩ := genStatBlobs_ok hgs
  refine ⟨statBlob, st₁.used, hpk, haf, ?_, ?_, hstatP, ?_, ?_⟩
  · rcases hcase with ⟨_, _, _, hstEq⟩ | ⟨_, inp, _, hgi⟩
    · rw [hstEq]
    · obtain ⟨inlogs, _, _, hloop⟩ := genInsertBlobs_ok hgi
      have := genInsertLoop_used env meta.id partID segID inlogs [] [] st
      rw [hloop] at this
      simp only [] at this
      omega
  · rw [hst, hst₂]
  · rw [hw, hkvs₂]
    exact kvsGet_kvsSet_self _ _ _
  · intro hemp
    rcases hcase with ⟨_, hins, _, _⟩ | ⟨hne, _⟩
    · exact ⟨hins, by simp [hstatP]⟩
    · rw [hemp] at hne
      cases hne

/-- Witness for C5: a concrete call with an empty insert batch. -/
theorem uploadStatsLog_always_writes_stats_witness :
    ∃ statBlob n,
      envW.serializePkStats ⟨9⟩ 11 = .ok statBlob ∧
      envW.allocFails n = false ∧
      St.used ⟨0⟩ ≤ n ∧
      (uploadStatsLog envW woW 5 3 2 ⟨[0]⟩ ⟨9⟩ 11 ⟨1⟩ ⟨0⟩).st.used = n + 1 ∧
      ([(100, ⟨100, [⟨11, "files/stats_log/1/2/3/100/40", 3⟩]⟩)]
          : List (Int × FieldBinlog))
        = [(parseFieldID statBlob.key,
            ⟨parseFieldID statBlob.key,
             [⟨11,
               joinPath [envW.rootPath, SegmentStatslogPath,
                 joinIDPath [1, 2, 3, parseFieldID statBlob.key, envW.alloc n]],
               Int.ofNat statBlob.value.length⟩]⟩)] ∧
      kvsGet (uploadStatsLog envW woW 5 3 2 ⟨[0]⟩ ⟨9⟩ 11 ⟨1⟩ ⟨0⟩).writes
        (joinPath [envW.rootPath, SegmentStatslogPath,
          joinIDPath [1, 2, 3, parseFieldID statBlob.key, envW.alloc n]])
        = some statBlob.value ∧
      (InsertData.isEmpty ⟨[0]⟩ = true →
        (none : Option (List (Int × FieldBinlog))) = none ∧
        ([(100, ⟨100, [⟨11, "files/stats_log/1/2/3/100/40", 3⟩]⟩)]
            : List (Int × FieldBinlog)) ≠ []) :=
  uploadStatsLog_always_writes_stats envW woW 5 3 2 ⟨[0]⟩ ⟨9⟩ 11 ⟨1⟩ ⟨0⟩ none
    [(100, ⟨100, [⟨11, "files/stats_log/1/2/3/100/40", 3⟩]⟩)] (by decide)

lemma uploadTask_sleeps_of_pos (o : WriteOracle) (fuel : Nat) :
    ∀ n, 1 ≤ n →
      (uploadTask o fuel n).sleeps
        = List.replicate (uploadTask o fuel n).attempts 50 := by
  induction fuel with
  | zero => intro n _; simp [uploadTask]
  | succ m ih =>
    intro n hn
    unfold uploadTask
    by_cases hc : o.canceled n
    · simp [hc]
    · rw [if_neg (by simp [hc])]
      cases hw : o.write n
      · simp [if_neg (by omega : ¬n = 0)]
      · simp only [if_neg (by omega : ¬n = 0)]
        simp only [List.replicate_add, List.replicate_succ, List.replicate_zero]
        rw [ih (n + 1) (by omega)]

/-- Per-task oracle for the witnesses: the signal fires at the third check,
every write fails. -/
def woA : WriteOracle := ⟨fun k => k == 2, fun _ => some "boom"⟩

/-- Per-task oracle for the witnesses: the signal never fires, writes fail
until the fourth attempt. -/
def woB : WriteOracle := ⟨fun _ => false, fun k => if k == 3 then none else some "x"⟩

/-- Per-task oracle for the witnesses: the signal never fires, every write
fails. -/
def woF : WriteOracle := ⟨fun _ => false, fun _ => some "y"⟩

/-- C4: the retry loop of a write task submitted by `uploadSegmentFiles`:
(A) after a failed attempt, if the cancellation signal has fired at the next
check the task stops with the distinguished error `errUploadToBlobStorage`
and makes no further attempt; (B) otherwise it sleeps exactly one 50ms
backoff and retries, whatever the error was; (C) with the signal clear and
every attempt failing the task performs one attempt per loop iteration with
no bound; (D) every backoff sleep is exactly 50ms, one before every attempt
except the first. -/
theorem uploadTask_retry_policy (o : WriteOracle) (n fuel : Nat) (e : String) :
    (o.canceled n = false → o.write n = some e → o.canceled (n + 1) = true →
      uploadTask o (fuel + 2) n
        = ⟨1, if n = 0 then [] else [50], some (.error .errUploadToBlobStorage)⟩) ∧
    (o.canceled n = false → o.write n = some e → o.canceled (n + 1) = false →
      (uploadTask o (fuel + 2) n).result = (uploadTask o (fuel + 1) (n + 1)).result ∧
      (uploadTask o (fuel + 2) n).attempts
        = 1 + (uploadTask o (fuel + 1) (n + 1)).attempts ∧
      1 ≤ (uploadTask o (fuel + 1) (n + 1)).attempts ∧
      ∃ tl, (uploadTask o (fuel + 1) (n + 1)).sleeps = 50 :: tl) ∧
    ((∀ k, o.canceled k = false) → (∀ k, ∃ e2, o.write k = some e2) →
      (uploadTask o fuel n).attempts = fuel ∧ (uploadTask o fuel n).result = none) ∧
    (uploadTask o fuel 0).sleeps
      = List.replicate ((uploadTask o fuel 0).attempts - 1) 50 := by
  refine ⟨?_, ?_, ?_, ?_⟩
  · intro hc hw hc'
    have hstep : uploadTask o (fuel + 2) n
        = ⟨1 + (uploadTask o (fuel + 1) (n + 1)).attempts,
           (if n = 0 then [] else [50]) ++ (uploadTask o (fuel + 1) (n + 1)).sleeps,
           (uploadTask o (fuel + 1) (n + 1)).result⟩ := by
      conv_lhs => unfold uploadTask
      rw [if_neg (by simp [hc]), hw]
    have hcanc : uploadTask o (fuel + 1) (n + 1)
        = ⟨0, [], some (.error .errUploadToBlobStorage)⟩ := by
      conv_lhs => unfold uploadTask
      rw [if_pos hc']
    rw [hstep, hcanc]
    simp
  · intro hc hw hc'
    have hstep : uploadTask o (fuel + 2) n
        = ⟨1 + (uploadTask o (fuel + 1) (n + 1)).attempts,
           (if n = 0 then [] else [50]) ++ (uploadTask o (fuel + 1) (n + 1)).sleeps,
           (uploadTask o (fuel + 1) (n + 1)).result⟩ := by
      conv_lhs => unfold uploadTask
      rw [if_neg (by simp [hc]), hw]
    refine ⟨by rw [hstep], by rw [hstep], ?_, ?_⟩
    · cases hw' : o.write (n + 1)
      · have hnx : uploadTask o (fuel + 1) (n + 1)
            = ⟨1, if n + 1 = 0 then [] else [50], some (.ok ())⟩ := by
          conv_lhs => unfold uploadTask
          rw [if_neg (by simp [hc']), hw']
        rw [hnx]
      · have hnx : uploadTask o (fuel + 1) (n + 1)
            = ⟨1 + (uploadTask o fuel (n + 2)).attempts,
               (if n + 1 = 0 then [] else [50]) ++ (uploadTask o fuel (n + 2)).sleeps,
               (uploadTask o fuel (n + 2)).result⟩ := by
          conv_lhs => unfold uploadTask
          rw [if_neg (by simp [hc']), hw']
        rw [hnx]
        simp
    · cases hw' : o.write (n + 1)
      · have hnx : uploadTask o (fuel + 1) (n + 1)
            = ⟨1, if n + 1 = 0 then [] else [50], some (.ok ())⟩ := by
          conv_lhs => unfold uploadTask
          rw [if_neg (by simp [hc']), hw']
        refine ⟨[], ?_⟩
        rw [hnx]
        simp
      · have hnx : uploadTask o (fuel + 1) (n + 1)
            = ⟨1 + (uploadTask o fuel (n + 2)).attempts,
               (if n + 1 = 0 then [] else [50]) ++ (uploadTask o fuel (n + 2)).sleeps,
               (uploadTask o fuel (n + 2)).result⟩ := by
          conv_lhs => unfold uploadTask
          rw [if_neg (by simp [hc']), hw']
        refine ⟨(uploadTask o fuel (n + 2)).sleeps, ?_⟩
        rw [hnx]
        simp
  · intro hnc hfail
    induction fuel generalizing n with
    | zero => simp [uploadTask]
    | succ m ih =>
      obtain ⟨e2, hw⟩ := hfail n
      have hstep : uploadTask o (m + 1) n
          = ⟨1 + (uploadTask o m (n + 1)).attempts,
             (if n = 0 then [] else [50]) ++ (uploadTask o m (n + 1)).sleeps,
             (uploadTask o m (n + 1)).result⟩ := by
        conv_lhs => unfold uploadTask
        rw [if_neg (by simp [hnc n]), hw]
      obtain ⟨iha, ihr⟩ := ih (n + 1)
      rw [hstep]
      constructor
      · simp only []
        rw [iha]
        omega
      · simpa using ihr
  · cases fuel with
    | zero => simp [uploadTask]
    | succ m =>
      unfold uploadTask
      by_cases hc : o.canceled 0
      · simp [hc]
      · rw [if_neg (by simp [hc])]
        cases hw : o.write 0
        · simp
        · simp only [if_pos rfl, List.nil_append]
          rw [uploadTask_sleeps_of_pos o m 1 (by omega)]
          simp

/-- Witness for C4: the four conclusions at concrete oracles. -/
theorem uploadTask_retry_policy_witness :
    uploadTask woA 5 1 = ⟨1, [50], some (.error .errUploadToBlobStorage)⟩ ∧
    ((uploadTask woB 5 0).result = (uploadTask woB 4 1).result ∧
      (uploadTask woB 5 0).attempts = 1 + (uploadTask woB 4 1).attempts ∧
      1 ≤ (uploadTask woB 4 1).attempts ∧
      ∃ tl, (uploadTask woB 4 1).sleeps = 50 :: tl) ∧
    ((uploadTask woF 7 0).attempts = 7 ∧ (uploadTask woF 7 0).result = none) ∧
    (uploadTask woA 6 0).sleeps
      = List.replicate ((uploadTask woA 6 0).attempts - 1) 50 :=
  ⟨by
      have := (uploadTask_retry_policy woA 1 3 "boom").1 rfl rfl rfl
      simpa using this,
   (uploadTask_retry_policy woB 0 3 "x").2.1 rfl rfl rfl,
   (uploadTask_retry_policy woF 0 7 "y").2.2.1 (fun _ => rfl) (fun _ => ⟨"y", rfl⟩),
   (uploadTask_retry_policy woA 0 6 "z").2.2.2⟩

/-- C10: if the cancellation signal has already fired before the submitted
write tasks run, `uploadSegmentFiles` on a non-empty pair set fails with the
distinguished cancellation error `errUploadToBlobStorage` and performs zero
write attempts — the cancellation check precedes every attempt, including
the first. -/
theorem uploadSegmentFiles_precanceled (wo : Nat → WriteOracle) (fuel : Nat)
    (kvs : List (String × Bytes)) (h1 : kvs ≠ [])
    (h2 : ∀ j, (wo j).canceled 0 = true) (h3 : 1 ≤ fuel) :
    uploadSegmentFiles wo fuel kvs
      = (some (.error .errUploadToBlobStorage), 0) := by
  obtain ⟨m, rfl⟩ : ∃ m, fuel = m + 1 := ⟨fuel - 1, by omega⟩
  have htask : ∀ j, uploadTask (wo j) (m + 1) 0
      = ⟨0, [], some (.error .errUploadToBlobStorage)⟩ := by
    intro j
    simp [uploadTask, h2 j]
  cases kvs with
  | nil => exact absurd rfl h1
  | cons a l =>
    unfold uploadSegmentFiles
    have hruns : (List.range (a :: l).length).map (fun j => uploadTask (wo j) (m + 1) 0)
        = List.replicate (a :: l).length ⟨0, [], some (.error .errUploadToBlobStorage)⟩ := by
      rw [List.map_congr_left (fun j _ => htask j)]
      simp [List.map_const']
    simp only [List.isEmpty_cons, if_neg (by simp : ¬false = true), hruns]
    simp [List.all_eq_true, List.any_eq_true, List.mem_replicate, List.length_cons]

/-- Witness for C10: a one-pair batch with the signal already fired. -/
theorem uploadSegmentFiles_precanceled_witness :
    uploadSegmentFiles woC 5 [("k", [1])]
      = (some (.error .errUploadToBlobStorage), 0) :=
  uploadSegmentFiles_precanceled woC 5 [("k", [1])] (by decide)
    (fun _ => rfl) (by decide)

lemma find?_runPool (task : Nat → Except String Bytes) (order : List Nat)
    (i : Nat) (h : i ∈ order) :
    (runPool task order).find? (fun p => p.1 == i) = some (i, task i) := by
  induction order with
  | nil => cases h
  | cons j rest ih =>
    unfold runPool
    simp only [List.map_cons]
    by_cases hj : j = i
    · subst hj
      rw [List.find?_cons_of_pos _ (by simp)]
    · rw [List.find?_cons_of_neg _ (by simp [hj])]
      rcases List.mem_cons.mp h with h1 | h1
      · exact absurd h1.symm hj
      · exact ih h1

lemma await_runPool (task : Nat → Except String Bytes) (order : List Nat)
    (i : Nat) (h : i ∈ order) :
    await (runPool task order) i = task i := by
  unfold await
  rw [find?_runPool task order i h]
  rfl

lemma downloadWith_eq_collect (re : ReadEnv) (paths : List String)
    (order : List Nat) (hperm : order.Perm (List.range paths.length))
    (h0 : ¬paths.length = 0) :
    downloadWith re paths order
      = collectBlobs ((List.range paths.length).map
          (fun j => readResult re (paths.getD j ""))) := by
  unfold downloadWith
  rw [if_neg h0]
  show collectBlobs ((List.range paths.length).map
      (fun i => await (runPool (fun j => readResult re (paths.getD j "")) order) i))
    = _
  congr 1
  apply List.map_congr_left
  intro i hi
  exact await_runPool _ order i (hperm.mem_iff.mpr hi)

lemma getD_map_range {α : Type} (f : Nat → α) (d : α) :
    ∀ n i, i < n → ((List.range n).map f).getD i d = f i := by
  intro n
  induction n with
  | zero => intro i hi; omega
  | succ m ih =>
    intro i hi
    rw [List.range_succ, List.map_append]
    by_cases him : i < m
    · rw [List.getD_append]
      · exact ih i him
      · simpa using him
    · have hieq : i = m := by omega
      subst hieq
      rw [List.getD_append_right]
      · simp
      · simp

lemma collectBlobs_ok : ∀ (l : List (Except String Bytes)) (resp : List Blob),
    (collectBlobs l).1 = some resp →
    resp.length = l.length ∧
    ∀ i, i < l.length →
      ∃ v, l.getD i (.error "") = .ok v ∧ resp.getD i ⟨"", [], 0⟩ = ⟨"", v, 0⟩ := by
  intro l
  induction l with
  | nil =>
    intro resp h
    simp only [collectBlobs] at h
    have hre : resp = [] := by simpa using h.symm
    subst hre
    exact ⟨rfl, fun i hi => by simp at hi⟩
  | cons a rest ih =>
    intro resp h
    cases a with
    | error e => simp [collectBlobs] at h
    | ok v =>
      simp only [collectBlobs] at h
      rcases hr : collectBlobs rest with ⟨ro, re2⟩
      rw [hr] at h
      cases ro with
      | none =>
        cases re2 <;> simp at h
      | some vs =>
        cases re2 with
        | some e => simp at h
        | none =>
          simp only [Option.some.injEq] at h
          have hre : resp = ⟨"", v, 0⟩ :: vs := h.symm
          subst hre
          obtain ⟨ihl, ihi⟩ := ih vs (by rw [hr])
          refine ⟨by simp [ihl], ?_⟩
          intro i hi
          cases i with
          | zero => exact ⟨v, rfl, rfl⟩
          | succ k =>
            rw [List.getD_cons_succ, List.getD_cons_succ]
            exact ihi k (by simpa using hi)

lemma collectBlobs_err : ∀ (l : List (Except String Bytes)) (i : Nat) (e : String),
    i < l.length → l.getD i (.error "") = .error e →
    (∀ j, j < i → ∃ v, l.getD j (.error "") = .ok v) →
    collectBlobs l = (none, some e) := by
  intro l
  induction l with
  | nil => intro i e hi _ _; simp at hi
  | cons a rest ih =>
    intro i e hi herr hok
    cases i with
    | zero =>
      rw [List.getD_cons_zero] at herr
      subst herr
      rfl
    | succ k =>
      obtain ⟨v, hv⟩ := hok 0 (by omega)
      rw [List.getD_cons_zero] at hv
      subst hv
      simp only [collectBlobs]
      rw [ih k e (by simpa using hi) (by simpa using herr)
        (fun j hj => by simpa using hok (j + 1) (by omega))]

/-- C1: for every execution order of the parallel read tasks that is a
permutation of the task indices, `download` returns the same value as with
the canonical order, and a successful download returns one blob per input
key with the blob at index `i` holding exactly the bytes the retrying read
task produced for the key at index `i`. -/
theorem download_order_preserved (re : ReadEnv) (paths : List String)
    (order : List Nat) (hperm : order.Perm (List.range paths.length)) :
    downloadWith re paths order = download re paths ∧
    ∀ resp, (downloadWith re paths order).1 = some resp →
      resp.length = paths.length ∧
      ∀ i, i < paths.length →
        ∃ v, readResult re (paths.getD i "") = .ok v ∧
          resp.getD i ⟨"", [], 0⟩ = ⟨"", v, 0⟩ := by
  by_cases h0 : paths.length = 0
  · constructor
    · unfold download downloadWith
      rw [if_pos h0, if_pos h0]
    · intro resp hresp
      unfold downloadWith at hresp
      rw [if_pos h0] at hresp
      simp only [Option.some.injEq] at hresp
      subst hresp
      exact ⟨by simp [h0], fun i hi => absurd hi (by omega)⟩
  · have hcan : download re paths
        = collectBlobs ((List.range paths.length).map
            (fun j => readResult re (paths.getD j ""))) :=
      downloadWith_eq_collect re paths (List.range paths.length)
        (List.Perm.refl _) h0
    have hord := downloadWith_eq_collect re paths order hperm h0
    constructor
    · rw [hord, hcan]
    · intro resp hresp
      rw [hord] at hresp
      obtain ⟨hlen, hidx⟩ := collectBlobs_ok _ resp hresp
      constructor
      · rw [hlen]; simp
      · intro i hi
        have := hidx i (by simpa using hi)
        rwa [getD_map_range _ _ _ _ hi] at this

/-- Witness for C1: two keys read in reversed completion order. -/
theorem download_order_preserved_witness :
    downloadWith reW ["a", "bb"] [1, 0] = download reW ["a", "bb"] ∧
    ∀ resp, (downloadWith reW ["a", "bb"] [1, 0]).1 = some resp →
      resp.length = (["a", "bb"] : List String).length ∧
      ∀ i, i < (["a", "bb"] : List String).length →
        ∃ v, readResult reW ((["a", "bb"] : List String).getD i "") = .ok v ∧
          resp.getD i ⟨"", [], 0⟩ = ⟨"", v, 0⟩ :=
  download_order_preserved reW ["a", "bb"] [1, 0] (by decide)

/-- C7: if the read task for some key ultimately fails (all earlier keys
succeeding), `download` returns that task's error together with a nil blob
sequence — no blob fetched by any other task is surfaced. -/
theorem download_failfast (re : ReadEnv) (paths : List String) (i : Nat)
    (e : String) (hi : i < paths.length)
    (hf : readResult re (paths.getD i "") = .error e)
    (hok : ∀ j, j < i → ∃ v, readResult re (paths.getD j "") = .ok v) :
    download re paths = (none, some e) := by
  unfold download
  rw [downloadWith_eq_collect re paths (List.range paths.length)
    (List.Perm.refl _) (by omega)]
  apply collectBlobs_err
  · simpa using hi
  · rwa [getD_map_range _ _ _ _ hi]
  · intro j hj
    rw [getD_map_range _ _ _ _ (by omega)]
    exact hok j hj

/-- Witness for C7: the second key fails non-retryably, the first succeeds;
the whole batch is discarded. -/
theorem download_failfast_witness :
    download reW ["a", "bad"] = (none, some "notfound") :=
  download_failfast reW ["a", "bad"] 1 "notfound" (by decide) (by decide)
    (fun j hj => by
      have hj0 : j = 0 := by omega
      subst hj0
      exact ⟨[1], by decide⟩)

/-- C6: the read task for any key performs at most 3 attempts; a retry
happens only when the previous attempt failed with an error classified as
retryable; and a non-retryable error is surfaced immediately with no
further attempt for that key. -/
theorem download_read_retry (re : ReadEnv) (p : String) :
    readAttempts re p ≤ 3 ∧
    (∀ m, m + 1 < readAttempts re p →
      ∃ e, re.read p m = .error e ∧ re.retryable e = true) ∧
    (∀ n e, n < readAttempts re p → re.read p n = .error e →
      re.retryable e = false →
      readResult re p = .error e ∧ readAttempts re p = n + 1) := by
  rcases h0 : re.read p 0 with e0 | v0
  · by_cases r0 : re.retryable e0
    · rcases h1 : re.read p 1 with e1 | v1
      · by_cases r1 : re.retryable e1
        · have hc : retryDo re p 3 0 = (re.read p 2, 3) := by
            simp [retryDo, h0, r0, h1, r1]
          refine ⟨by simp [readAttempts, hc], ?_, ?_⟩
          · intro m hm
            rw [readAttempts, hc] at hm
            simp only [] at hm
            match m, hm with
            | 0, _ => exact ⟨e0, h0, r0⟩
            | 1, _ => exact ⟨e1, h1, r1⟩
          · intro n e hn he hre
            rw [readAttempts, hc] at hn
            simp only [] at hn
            match n, hn with
            | 0, _ => rw [h0] at he; injection he with he; subst he; exact absurd r0 (by simp [hre])
            | 1, _ => rw [h1] at he; injection he with he; subst he; exact absurd r1 (by simp [hre])
            | 2, _ =>
              rw [he] at hc
              exact ⟨by simp [readResult, hc], by simp [readAttempts, hc]⟩
        · have hc : retryDo re p 3 0 = (.error e1, 2) := by
            simp [retryDo, h0, r0, h1, r1]
          refine ⟨by simp [readAttempts, hc], ?_, ?_⟩
          · intro m hm
            rw [readAttempts, hc] at hm
            simp only [] at hm
            match m, hm with
            | 0, _ => exact ⟨e0, h0, r0⟩
          · intro n e hn he hre
            rw [readAttempts, hc] at hn
            simp only [] at hn
            match n, hn with
            | 0, _ => rw [h0] at he; injection he with he; subst he; exact absurd r0 (by simp [hre])
            | 1, _ =>
              rw [h1] at he
              injection he with he
              subst he
              exact ⟨by simp [readResult, hc], by simp [readAttempts, hc]⟩
      · have hc : retryDo re p 3 0 = (.ok v1, 2) := by
          simp [retryDo, h0, r0, h1]
        refine ⟨by simp [readAttempts, hc], ?_, ?_⟩
        · intro m hm
          rw [readAttempts, hc] at hm
          simp only [] at hm
          match m, hm with
          | 0, _ => exact ⟨e0, h0, r0⟩
        · intro n e hn he hre
          rw [readAttempts, hc] at hn
          simp only [] at hn
          match n, hn with
          | 0, _ => rw [h0] at he; injection he with he; subst he; exact absurd r0 (by simp [hre])
          | 1, _ => rw [h1] at he; cases he
    · have hc : retryDo re p 3 0 = (.error e0, 1) := by
        simp [retryDo, h0, r0]
      refine ⟨by simp [readAttempts, hc], ?_, ?_⟩
      · intro m hm
        rw [readAttempts, hc] at hm
        simp only [] at hm
        omega
      · intro n e hn he hre
        rw [readAttempts, hc] at hn
        simp only [] at hn
        match n, hn with
        | 0, _ =>
          rw [h0] at he
          injection he with he
          subst he
          exact ⟨by simp [readResult, hc], by simp [readAttempts, hc]⟩
  · have hc : retryDo re p 3 0 = (.ok v0, 1) := by
      simp [retryDo, h0]
    refine ⟨by simp [readAttempts, hc], ?_, ?_⟩
    · intro m hm
      rw [readAttempts, hc] at hm
      simp only [] at hm
      omega
    · intro n e hn he hre
      rw [readAttempts, hc] at hn
      simp only [] at hn
      match n, hn with
      | 0, _ => rw [h0] at he; cases he

/-- Witness for C6: the non-retryable key `bad` is surfaced after exactly
one attempt. -/
theorem download_read_retry_witness :
    readAttempts reW "bad" ≤ 3 ∧
    (readResult reW "bad" = .error "notfound" ∧ readAttempts reW "bad" = 0 + 1) :=
  ⟨(download_read_retry reW "bad").1,
   (download_read_retry reW "bad").2.2 0 "notfound" (by decide) (by decide)
     (by decide)⟩

lemma genInsertLoop_len_le (env : Env) (schemaID partID segID : Int) :
    ∀ (blobs : List Blob) (kvs : List (String × Bytes))
      (acc : List (Int × FieldBinlog)) (st : St),
      (genInsertLoop env schemaID partID segID blobs kvs acc st).2.1.length
        ≤ kvs.length + blobs.length := by
  intro blobs
  induction blobs with
  | nil => intro kvs acc st; simp [genInsertLoop]
  | cons b rest ih =>
    intro kvs acc st
    simp only [genInsertLoop, List.length_cons]
    refine le_trans (ih _ _ _) ?_
    have h2 := kvsSet_length_le kvs (insertStepKey env schemaID partID segID b st)
      b.value
    omega

lemma genInsertLoop_inv (env : Env) (schemaID partID segID : Int) :
    ∀ (blobs : List Blob) (kvs : List (String × Bytes))
      (acc : List (Int × FieldBinlog)) (st : St),
      (genInsertLoop env schemaID partID segID blobs kvs acc st).2.1.length
        = kvs.length + blobs.length →
      (∀ p ∈ acc, ∀ bl ∈ p.2.binlogs,
        ∃ v, kvsGet kvs bl.logPath = some v ∧ bl.logSize = Int.ofNat v.length) →
      ∀ p ∈ (genInsertLoop env schemaID partID segID blobs kvs acc st).1,
        ∀ bl ∈ p.2.binlogs,
          ∃ v, kvsGet (genInsertLoop env schemaID partID segID blobs kvs acc st).2.1
              bl.logPath = some v ∧
            bl.logSize = Int.ofNat v.length := by
  intro blobs
  induction blobs with
  | nil =>
    intro kvs acc st _ hacc
    simpa [genInsertLoop] using hacc
  | cons b rest ih =>
    intro kvs acc st hlen hacc
    simp only [genInsertLoop, List.length_cons] at hlen ⊢
    have hle := genInsertLoop_len_le env schemaID partID segID rest
      (kvsSet kvs (insertStepKey env schemaID partID segID b st) b.value)
      (fmapSet acc (parseFieldID b.key)
        ⟨parseFieldID b.key,
         [⟨b.rowNum, insertStepKey env schemaID partID segID b st,
           Int.ofNat b.value.length⟩]⟩)
      ⟨st.used + 1⟩
    have hstep : (kvsSet kvs (insertStepKey env schemaID partID segID b st)
        b.value).length = kvs.length + 1 := by
      have h2 := kvsSet_length_le kvs (insertStepKey env schemaID partID segID b st)
        b.value
      omega
    have hfresh := kvsSet_fresh_of_length hstep
    have happ := kvsSet_of_fresh b.value hfresh
    refine ih _ _ _ (by omega) ?_
    intro p hp bl hbl
    rcases mem_fmapSet hp with hpo | hpe
    · obtain ⟨v, hv, hs⟩ := hacc p hpo bl hbl
      refine ⟨v, ?_, hs⟩
      rw [happ]
      exact kvsGet_append_left _ hv
    · subst hpe
      simp only [List.mem_singleton] at hbl
      subst hbl
      refine ⟨b.value, ?_, rfl⟩
      rw [happ]
      exact kvsGet_append_fresh b.value hfresh

/-- C2: for every `FieldBinlog` returned by `uploadInsertLog`,
`uploadStatsLog` or `uploadDeltaLog`, every entry of its `Binlogs` list has
`LogSize` equal to the exact byte length of the payload stored in the write
batch under its `LogPath` (for the insert maps, under the standing
assumption that the allocated disambiguators produced no key collision —
i.e. the batch holds one entry per serialized blob). -/
theorem logSize_matches_batch (env : Env) (wo : Nat → WriteOracle) (fuel : Nat)
    (segID partID totRows : Int) (iData : InsertData) (stats : PrimaryKeyStats)
    (meta : CollectionMeta) (st : St) (dData : DeleteData) :
    (∀ inp inlogs,
      (uploadInsertLog env wo fuel segID partID iData meta st).result
        = some (.ok (some inp)) →
      env.serializeInsert partID segID iData = .ok inlogs →
      (uploadInsertLog env wo fuel segID partID iData meta st).writes.length
        = inlogs.length →
      sizeInv inp (uploadInsertLog env wo fuel segID partID iData meta st).writes) ∧
    (∀ ins statP,
      (uploadStatsLog env wo fuel segID partID iData stats totRows meta st).result
        = some (.ok (ins, statP)) →
      sizeInv statP
        (uploadStatsLog env wo fuel segID partID iData stats totRows meta st).writes ∧
      ∀ inp inlogs, ins = some inp →
        env.serializeInsert partID segID iData = .ok inlogs →
        (uploadStatsLog env wo fuel segID partID iData stats totRows meta st).writes.length
          = inlogs.length + 1 →
        sizeInv inp
          (uploadStatsLog env wo fuel segID partID iData stats totRows meta st).writes) ∧
    (∀ dl,
      (uploadDeltaLog env wo fuel segID partID dData meta st).result
        = some (.ok (some dl)) →
      sizeInvF dl (uploadDeltaLog env wo fuel segID partID dData meta st).writes) := by
  refine ⟨?_, ?_, ?_⟩
  · intro inp inlogs h hser hlen
    obtain ⟨_, kvs, st', hg, hw, _⟩ := uploadInsertLog_ok h
    obtain ⟨inlogs', hser', _, hloop⟩ := genInsertBlobs_ok hg
    rw [hser] at hser'
    injection hser' with hser'
    subst hser'
    rw [hw] at hlen ⊢
    intro p hp bl hbl
    have hkvs : (genInsertLoop env meta.id partID segID inlogs [] [] st).2.1 = kvs := by
      rw [hloop]
    have hinp : (genInsertLoop env meta.id partID segID inlogs [] [] st).1 = inp := by
      rw [hloop]
    have := genInsertLoop_inv env meta.id partID segID inlogs [] [] st
      (by rw [hkvs]; simpa using hlen) (by intro p hp; cases hp)
      p (by rw [hinp]; exact hp) bl hbl
    rwa [hkvs] at this
  · intro ins statP h
    obtain ⟨kvs₁, st₁, hcase, kvs₂, st₂, hgs, hw, _⟩ := uploadStatsLog_ok h
    obtain ⟨statBlob, _, _, _, hstatP, hkvs₂⟩ := genStatBlobs_ok hgs
    constructor
    · intro p hp bl hbl
      rw [hstatP, List.mem_singleton] at hp
      subst hp
      simp only [List.mem_singleton] at hbl
      subst hbl
      refine ⟨statBlob.value, ?_, rfl⟩
      rw [hw, hkvs₂]
      exact kvsGet_kvsSet_self _ _ _
    · intro inp inlogs hins hser hlen
      rcases hcase with ⟨_, hnone, _, _⟩ | ⟨_, inp', hins', hg⟩
      · rw [hnone] at hins
        cases hins
      · rw [hins'] at hins
        injection hins with hins
        subst hins
        obtain ⟨inlogs', hser', _, hloop⟩ := genInsertBlobs_ok hg
        rw [hser] at hser'
        injection hser' with hser'
        subst hser'
        have hkvs : (genInsertLoop env meta.id partID segID inlogs [] [] st).2.1 = kvs₁ := by
          rw [hloop]
        have hinp : (genInsertLoop env meta.id partID segID inlogs [] [] st).1 = inp' := by
          rw [hloop]
        rw [hw, hkvs₂] at hlen ⊢
        have hle1 := genInsertLoop_len_le env meta.id partID segID inlogs [] [] st
        rw [hkvs] at hle1
        have hle2 := kvsSet_length_le kvs₁
          (joinPath [env.rootPath, SegmentStatslogPath,
            joinIDPath [meta.id, partID, segID, parseFieldID statBlob.key,
              env.alloc st₁.used]])
          statBlob.value
        simp only [List.length_nil] at hle1
        have hk1len : kvs₁.length = inlogs.length := by omega
        have hstep : (kvsSet kvs₁
            (joinPath [env.rootPath, SegmentStatslogPath,
              joinIDPath [meta.id, partID, segID, parseFieldID statBlob.key,
                env.alloc st₁.used]])
            statBlob.value).length = kvs₁.length + 1 := by omega
        have happ := kvsSet_of_fresh statBlob.value (kvsSet_fresh_of_length hstep)
        intro p hp bl hbl
        have := genInsertLoop_inv env meta.id partID segID inlogs [] [] st
          (by rw [hkvs]; simpa using hk1len) (by intro p hp; cases hp)
          p (by rw [hinp]; exact hp) bl hbl
        rw [hkvs] at this
        obtain ⟨v, hv, hs⟩ := this
        refine ⟨v, ?_, hs⟩
        rw [happ]
        exact kvsGet_append_left _ hv
  · intro dl h
    obtain ⟨_, k, v, st', _, hdl, hw, _⟩ := uploadDeltaLog_ok h
    intro fb hfb bl hbl
    rw [hdl, List.mem_singleton] at hfb
    subst hfb
    simp only [List.mem_singleton] at hbl
    subst hbl
    refine ⟨v, ?_, rfl⟩
    rw [hw]
    exact kvsGet_kvsSet_self _ _ _

/-- Witness for C2: concrete insert, stats and delta uploads. -/
theorem logSize_matches_batch_witness :
    sizeInv [(100, ⟨100, [⟨4, "files/insert_log/1/2/3/100/40", 2⟩]⟩)]
      (uploadInsertLog envW woW 5 3 2 ⟨[4]⟩ ⟨1⟩ ⟨0⟩).writes ∧
    sizeInv [(100, ⟨100, [⟨11, "files/stats_log/1/2/3/100/40", 3⟩]⟩)]
      (uploadStatsLog envW woW 5 3 2 ⟨[0]⟩ ⟨9⟩ 11 ⟨1⟩ ⟨0⟩).writes ∧
    sizeInvF [⟨0, [⟨5, "files/delta_log/1/2/3/40", 2⟩]⟩]
      (uploadDeltaLog envW woW 5 3 2 ⟨5⟩ ⟨1⟩ ⟨0⟩).writes :=
  ⟨(logSize_matches_batch envW woW 5 3 2 11 ⟨[4]⟩ ⟨9⟩ ⟨1⟩ ⟨0⟩ ⟨5⟩).1
      [(100, ⟨100, [⟨4, "files/insert_log/1/2/3/100/40", 2⟩]⟩)]
      [⟨"100", [7, 8], 4⟩] (by decide) (by decide) (by decide),
   ((logSize_matches_batch envW woW 5 3 2 11 ⟨[0]⟩ ⟨9⟩ ⟨1⟩ ⟨0⟩ ⟨5⟩).2.1
      none [(100, ⟨100, [⟨11, "files/stats_log/1/2/3/100/40", 3⟩]⟩)]
      (by decide)).1,
   (logSize_matches_batch envW woW 5 3 2 11 ⟨[4]⟩ ⟨9⟩ ⟨1⟩ ⟨0⟩ ⟨5⟩).2.2
      [⟨0, [⟨5, "files/delta_log/1/2/3/40", 2⟩]⟩] (by decide)⟩

lemma genDeltaBlobs_ok {env : Env} {dData : DeleteData}
    {collID partID segID : Int} {st : St} {k : String} {v : Bytes} {st' : St}
    (h : genDeltaBlobs env dData collID partID segID st = .ok (k, v, st')) :
    ∃ blob, env.serializeDelete collID partID segID dData = .ok blob ∧
      env.allocFails st.used = false ∧ st' = ⟨st.used + 1⟩ ∧ v = blob.value ∧
      k = joinPath [env.rootPath, SegmentDeltaLogPath,
        joinIDPath [collID, partID, segID, env.alloc st.used]] := by
  unfold genDeltaBlobs allocOne at h
  rcases hs : env.serializeDelete collID partID segID dData with e | blob <;>
    rw [hs] at h <;> simp only [] at h
  · cases h
  · by_cases ha : env.allocFails st.used
    · rw [if_pos ha] at h
      simp only [] at h
      cases h
    · rw [Bool.not_eq_true] at ha
      rw [if_neg (by simp [ha])] at h
      simp only [Except.ok.injEq, Prod.mk.injEq] at h
      obtain ⟨h1, h2, h3⟩ := h
      exact ⟨blob, rfl, ha, h3.symm, h2.symm, h1.symm⟩

lemma genInsertLoop_shape (env : Env) (schemaID partID segID : Int) :
    ∀ (blobs : List Blob) (kvs : List (String × Bytes))
      (acc : List (Int × FieldBinlog)) (st : St),
      (∀ p ∈ acc, ∀ bl ∈ p.2.binlogs, ∃ idx, bl.logPath
        = joinPath [env.rootPath, SegmentInsertLogPath,
            joinIDPath [schemaID, partID, segID, p.1, idx]]) →
      ∀ p ∈ (genInsertLoop env schemaID partID segID blobs kvs acc st).1,
        ∀ bl ∈ p.2.binlogs, ∃ idx, bl.logPath
          = joinPath [env.rootPath, SegmentInsertLogPath,
              joinIDPath [schemaID, partID, segID, p.1, idx]] := by
  intro blobs
  induction blobs with
  | nil =>
    intro kvs acc st hacc
    simpa [genInsertLoop] using hacc
  | cons b rest ih =>
    intro kvs acc st hacc
    simp only [genInsertLoop]
    refine ih _ _ _ ?_
    intro p hp bl hbl
    rcases mem_fmapSet hp with hpo | hpe
    · exact hacc p hpo bl hbl
    · subst hpe
      simp only [List.mem_singleton] at hbl
      subst hbl
      exact ⟨env.alloc st.used, rfl⟩

/-- C3 counterexample: the delta-log key produced by `genDeltaBlobs` for a
concrete call has no field-ID segment — it differs from the key the claim
describes, which would also contain the delta log's (sentinel) field ID 0
between the segment ID and the disambiguator. -/
theorem key_scheme_counterexample :
    genDeltaBlobs envW ⟨5⟩ 1 2 3 ⟨0⟩
      = .ok ("files/delta_log/1/2/3/40", [4, 5], ⟨1⟩) ∧
    "files/delta_log/1/2/3/40"
      ≠ joinPath [envW.rootPath, SegmentDeltaLogPath,
          joinIDPath [1, 2, 3, 0, 40]] := by
  exact ⟨by decide, by decide⟩

/-- C3 (amended): the three log types use distinct subpath constants; insert
and stats keys are composed of the root prefix, the subpath, then
collection, partition, segment, field and disambiguator segments in that
order; delta keys are composed of the root prefix, the delta subpath, then
collection, partition, segment and disambiguator segments — with no field
segment. -/
theorem key_scheme_amended (env : Env) (wo : Nat → WriteOracle) (fuel : Nat)
    (segID partID totRows : Int) (iData : InsertData) (stats : PrimaryKeyStats)
    (meta : CollectionMeta) (st : St) (dData : DeleteData) :
    SegmentInsertLogPath ≠ SegmentStatslogPath ∧
    SegmentInsertLogPath ≠ SegmentDeltaLogPath ∧
    SegmentStatslogPath ≠ SegmentDeltaLogPath ∧
    (∀ inp, (uploadInsertLog env wo fuel segID partID iData meta st).result
        = some (.ok (some inp)) →
      ∀ p ∈ inp, ∀ bl ∈ p.2.binlogs, ∃ idx, bl.logPath
        = joinPath [env.rootPath, SegmentInsertLogPath,
            joinIDPath [meta.id, partID, segID, p.1, idx]]) ∧
    (∀ ins statP,
      (uploadStatsLog env wo fuel segID partID iData stats totRows meta st).result
        = some (.ok (ins, statP)) →
      ∀ p ∈ statP, ∀ bl ∈ p.2.binlogs, ∃ idx, bl.logPath
        = joinPath [env.rootPath, SegmentStatslogPath,
            joinIDPath [meta.id, partID, segID, p.1, idx]]) ∧
    (∀ dl, (uploadDeltaLog env wo fuel segID partID dData meta st).result
        = some (.ok (some dl)) →
      ∀ fb ∈ dl, ∀ bl ∈ fb.binlogs, ∃ idx, bl.logPath
        = joinPath [env.rootPath, SegmentDeltaLogPath,
            joinIDPath [meta.id, partID, segID, idx]]) := by
  refine ⟨by decide, by decide, by decide, ?_, ?_, ?_⟩
  · intro inp h p hp bl hbl
    obtain ⟨_, kvs, st', hg, _, _⟩ := uploadInsertLog_ok h
    obtain ⟨inlogs, _, _, hloop⟩ := genInsertBlobs_ok hg
    have hinp : (genInsertLoop env meta.id partID segID inlogs [] [] st).1 = inp := by
      rw [hloop]
    exact genInsertLoop_shape env meta.id partID segID inlogs [] [] st
      (by intro p hp; cases hp) p (by rw [hinp]; exact hp) bl hbl
  · intro ins statP h p hp bl hbl
    obtain ⟨kvs₁, st₁, _, kvs₂, st₂, hgs, _, _⟩ := uploadStatsLog_ok h
    obtain ⟨statBlob, _, _, _, hstatP, _⟩ := genStatBlobs_ok hgs
    rw [hstatP, List.mem_singleton] at hp
    subst hp
    simp only [List.mem_singleton] at hbl
    subst hbl
    exact ⟨env.alloc st₁.used, rfl⟩
  · intro dl h fb hfb bl hbl
    obtain ⟨_, k, v, st', hg, hdl, _, _⟩ := uploadDeltaLog_ok h
    obtain ⟨blob, _, _, _, _, hk⟩ := genDeltaBlobs_ok hg
    rw [hdl, List.mem_singleton] at hfb
    subst hfb
    simp only [List.mem_singleton] at hbl
    subst hbl
    exact ⟨env.alloc st.used, hk⟩

/-- Witness for C3 (amended): concrete insert and delta uploads. -/
theorem key_scheme_amended_witness :
    (∀ p ∈ ([(100, ⟨100, [⟨4, "files/insert_log/1/2/3/100/40", 2⟩]⟩)]
        : List (Int × FieldBinlog)),
      ∀ bl ∈ p.2.binlogs, ∃ idx, Binlog.logPath bl
        = joinPath [envW.rootPath, SegmentInsertLogPath,
            joinIDPath [1, 2, 3, p.1, idx]]) ∧
    (∀ fb ∈ ([⟨0, [⟨5, "files/delta_log/1/2/3/40", 2⟩]⟩] : List FieldBinlog),
      ∀ bl ∈ fb.binlogs, ∃ idx, Binlog.logPath bl
        = joinPath [envW.rootPath, SegmentDeltaLogPath,
            joinIDPath [1, 2, 3, idx]]) :=
  ⟨(key_scheme_amended envW woW 5 3 2 11 ⟨[4]⟩ ⟨9⟩ ⟨1⟩ ⟨0⟩ ⟨5⟩).2.2.2.1
      [(100, ⟨100, [⟨4, "files/insert_log/1/2/3/100/40", 2⟩]⟩)] (by decide),
   (key_scheme_amended envW woW 5 3 2 11 ⟨[4]⟩ ⟨9⟩ ⟨1⟩ ⟨0⟩ ⟨5⟩).2.2.2.2.2
      [⟨0, [⟨5, "files/delta_log/1/2/3/40", 2⟩]⟩] (by decide)⟩

end BinlogSpec
